import Mathlib

/-!
Shallow embedding of `nicegui/elements/element.py` and verification of its
natural-language specification.

The module under study is a thin adapter over a third-party GUI toolkit
(justpy): it mutates `classes` / `style` strings and arbitrary prop
attributes on a view object, diffs before requesting a redraw, and wires
visibility bindings.  Pure string and dictionary manipulation is embedded
faithfully below; the third-party view interface and the repository modules
not present in the sources (`binding`, `page`, `task_logger`) are modelled
from the specification where a claim needs them, each such definition marked
in its doc comment.
-/

namespace NiceGui

/-! ### Python string primitives -/

/-- Tokeniser for Python `str.split()` (no argument): split on runs of
whitespace, dropping empty tokens.  `cur` accumulates the characters of the
current token in reverse. -/
def wsTokensAux (cur : List Char) : List Char → List String
  | [] => if cur.isEmpty then [] else [String.mk cur.reverse]
  | c :: cs =>
    if c.isWhitespace then
      if cur.isEmpty then wsTokensAux [] cs
      else String.mk cur.reverse :: wsTokensAux [] cs
    else
      wsTokensAux (c :: cur) cs

/-- Python `s.split()`: whitespace-separated tokens of `s`, no empties. -/
def pySplit (s : String) : List String :=
  wsTokensAux [] s.data

/-- Python `sep.join(tokens)`. -/
def pyJoin (sep : String) : List String → String
  | [] => ""
  | [t] => t
  | t :: ts => t ++ sep ++ pyJoin sep ts

/-- Python `dict.fromkeys(l)` key order: drop duplicates, keep the first
occurrence of each element. -/
def pyFromKeys (l : List String) : List String :=
  l.foldl (fun acc x => if x ∈ acc then acc else acc ++ [x]) []

/-- Python `s.split(sep)` for a single-character separator: split at every
occurrence, keeping empty parts. -/
def charSplitAux (sep : Char) (cur : List Char) : List Char → List String
  | [] => [String.mk cur.reverse]
  | c :: cs =>
    if c = sep then String.mk cur.reverse :: charSplitAux sep [] cs
    else charSplitAux sep (c :: cur) cs

/-- Python `s.split(sep)` on a string, single-character separator. -/
def pySplitOnChar (sep : Char) (s : String) : List String :=
  charSplitAux sep [] s.data

/-- Python `word.strip()` (no argument): remove leading and trailing
whitespace. -/
def pyStripWs (s : String) : String :=
  String.mk (((s.data.dropWhile Char.isWhitespace).reverse.dropWhile
    Char.isWhitespace).reverse)

/-- Python `s.strip('; ')`: remove leading and trailing `';'` and `' '`. -/
def stripSemiSpace (s : String) : String :=
  let p : Char → Bool := fun c => c = ';' || c = ' '
  String.mk (((s.data.dropWhile p).reverse.dropWhile p).reverse)

/-! ### Python dictionaries as insertion-ordered association lists

A Python `dict` is insertion ordered with unique keys; every dictionary the
module builds starts from `{}` or a comprehension, so its key list is free of
duplicates.  We model a dict as a `List (key × value)` whose keys are kept
unique by construction: assignment to an existing key updates the value in
place, assignment to a fresh key appends. -/

/-- Python `d[k] = v` on an insertion-ordered dict. -/
def pyDictInsert {α : Type} (d : List (String × α)) (k : String) (v : α) :
    List (String × α) :=
  if k ∈ d.map Prod.fst then
    d.map (fun kv => if kv.1 = k then (k, v) else kv)
  else
    d ++ [(k, v)]

/-- Python `dict(pairs)` / a dict comprehension over `pairs`: later pairs
override earlier values of the same key; the position is the first
occurrence. -/
def pyDictOfList {α : Type} (l : List (String × α)) : List (String × α) :=
  l.foldl (fun d kv => pyDictInsert d kv.1 kv.2) []

/-- Python `d.update(other)`. -/
def pyDictUpdate {α : Type} (d other : List (String × α)) : List (String × α) :=
  other.foldl (fun d kv => pyDictInsert d kv.1 kv.2) d

/-- Python `del d[k]`: fails (raises `KeyError`) when the key is absent.
Keys are unique by construction, so removing every pair with key `k` removes
exactly the one entry `del` removes. -/
def pyDictDel {α : Type} (d : List (String × α)) (k : String) :
    Option (List (String × α)) :=
  if k ∈ d.map Prod.fst then some (d.filter (fun kv => kv.1 ≠ k))
  else none

/-- The `for key in str_to_dict(remove): del style_dict[key]` loop: delete the
keys one after the other, propagating the first `KeyError`. -/
def pyDictDelAll {α : Type} (d : List (String × α)) (ks : List String) :
    Option (List (String × α)) :=
  ks.foldlM pyDictDel d

/-! ### The data model

`View` is the mutable state of the underlying justpy component that
`element.py` touches: its `classes` string, its `style` string, and the
arbitrary attributes written by `setattr` / read by `getattr` (used for
Quasar props).  An attribute that was never written and an attribute set to
`None` are both read back as `None` by `getattr(view, key, None)`, hence the
`Option PropVal` values. -/

/-- A value a prop attribute can hold after `props(...)`: a string from a
`key=value` token or Python `True` from a bare token. -/
inductive PropVal : Type
  | str (s : String)
  | tt
deriving DecidableEq, Repr

/-- A `jp.QTooltip` as configured by `Element.tooltip`: its constructor
arguments and the attributes written by `setattr`. -/
structure Tooltip : Type where
  text : String
  temp : Bool
  attrs : List (String × Option PropVal)
deriving DecidableEq, Repr

/-- The slice of a justpy view that `element.py` mutates. -/
structure View : Type where
  classes : String
  style : String
  attrs : List (String × Option PropVal)
  tooltips : List Tooltip
deriving DecidableEq, Repr

/-- Python `getattr(view, key, None)`. -/
def View.getattr (v : View) (k : String) : Option PropVal :=
  (v.attrs.lookup k).getD none

/-- Python `setattr(view, key, x)`. -/
def View.setattr (v : View) (k : String) (x : Option PropVal) : View :=
  { v with attrs := pyDictInsert v.attrs k x }

/-- An element's identity: the Python object reference.  The mutable view
state is passed separately, so a method returning the very object it was
invoked on returns this value unchanged. -/
structure Element : Type where
  ref : Nat
deriving DecidableEq, Repr

/-! ### `Element.classes` (element.py lines 50-64) -/

/-- The `new_classes` string computed by `Element.classes` from the view's
current class string and the `add` / `remove` / `replace` arguments
(lines 56-60). -/
def computeClasses (cur : String) (add remove replaceArg : Option String) : String :=
  let class_list := if replaceArg = none then pySplit cur else []
  let class_list := class_list.filter (fun c => c ∉ pySplit (remove.getD ""))
  let class_list := class_list ++ pySplit (add.getD "")
  let class_list := class_list ++ pySplit (replaceArg.getD "")
  pyJoin " " (pyFromKeys class_list)

/-- `Element.classes`: write the recomputed class string and call `update()`
only when it differs from the current one; return `self`.  The `Bool` records
whether `update()` was invoked. -/
def Element.classes (e : Element) (v : View) (add remove replaceArg : Option String) :
    View × Bool × Element :=
  let new_classes := computeClasses v.classes add remove replaceArg
  if v.classes ≠ new_classes then ({ v with classes := new_classes }, true, e)
  else (v, false, e)

/-! ### `Element.style` (element.py lines 66-83) -/

/-- One `part` of `str_to_dict` in `Element.style`: `part.split(':')` with
every word stripped must yield exactly a key and a value; any other shape
makes the `dict(...)` constructor raise `ValueError`. -/
def parseStylePart (part : String) : Option (String × String) :=
  match (pySplitOnChar ':' part).map pyStripWs with
  | [k, v] => some (k, v)
  | _ => none

/-- `str_to_dict` of `Element.style` on an `Optional[str]` argument: `{}` for
`None` or the empty string, otherwise parse each `';'`-separated part. -/
def styleStrToDict (s : Option String) : Option (List (String × String)) :=
  match s with
  | none => some []
  | some s =>
    if s = "" then some []
    else ((pySplitOnChar ';' s).mapM parseStylePart).map pyDictOfList

/-- `';'.join(f'{key}:{value}' for key, value in d.items())`. -/
def styleStringOfDict (d : List (String × String)) : String :=
  pyJoin ";" (d.map (fun kv => kv.1 ++ ":" ++ kv.2))

/-- Line 74: `str_to_dict((view.style or '').strip('; ')) if replace is None
else {}`. -/
def baseStyleDict (previous : String) (replaceArg : Option String) :
    Option (List (String × String)) :=
  if replaceArg = none then styleStrToDict (some (stripSemiSpace previous))
  else pure []

/-- The `style_dict` computed by `Element.style` (lines 72-78): the current
style string reparsed (or `{}` when `replace` is given), the keys of `remove`
deleted, then `add` and `replace` merged in.  `none` models an escaping
`KeyError` / `ValueError`. -/
def styleDictOf (previous : String) (add remove replaceArg : Option String) :
    Option (List (String × String)) := do
  let style_dict ← baseStyleDict previous replaceArg
  let rmDict ← styleStrToDict remove
  let style_dict ← pyDictDelAll style_dict (rmDict.map Prod.fst)
  let addDict ← styleStrToDict add
  let style_dict := pyDictUpdate style_dict addDict
  let repDict ← styleStrToDict replaceArg
  pure (pyDictUpdate style_dict repDict)

/-- `Element.style`: recompute the style dict, write the serialized string
back and call `update()` only when it differs from the current one; return
`self`.  `none` models an escaping `KeyError` / `ValueError`; the `Bool`
records whether `update()` was invoked. -/
def Element.style (e : Element) (v : View) (add remove replaceArg : Option String) :
    Option (View × Bool × Element) := do
  let style_dict ← styleDictOf v.style add remove replaceArg
  let new_style := styleStringOfDict style_dict
  if v.style ≠ new_style then pure ({ v with style := new_style }, true, e)
  else pure (v, false, e)

/-! ### `Element.props` (element.py 85-105) -/

/-- One token of `str_to_dict` in `Element.props`: the key is
`prop.split('=')[0]`; a token containing `'='` maps to `prop.split('=')[1]`
(the second `'='`-segment), a bare token maps to `True`. -/
def propToken (p : String) : String × PropVal :=
  let parts := pySplitOnChar '=' p
  (parts.headD "", if parts.length ≥ 2 then PropVal.str (parts.getD 1 "") else PropVal.tt)

/-- `str_to_dict` of `Element.props` on an `Optional[str]` argument. -/
def propsStrToDict (s : Option String) : List (String × PropVal) :=
  match s with
  | none => []
  | some s => if s = "" then [] else pyDictOfList ((pySplit s).map propToken)

/-- `Element.props`: set every key of `remove` to `None`, then every key of
`add` to its value, flagging `needs_update` whenever a read-back differs from
the value about to be written; call `update()` at the end exactly when the
flag is set.  The `Bool` records whether `update()` was invoked. -/
def Element.props (e : Element) (v : View) (add remove : Option String) :
    View × Bool × Element :=
  let step1 := ((propsStrToDict remove).map Prod.fst).foldl
    (fun (acc : View × Bool) k =>
      (acc.1.setattr k none, acc.2 || decide (acc.1.getattr k ≠ none)))
    (v, false)
  let step2 := (propsStrToDict add).foldl
    (fun (acc : View × Bool) kv =>
      (acc.1.setattr kv.1 (some kv.2), acc.2 || decide (acc.1.getattr kv.1 ≠ some kv.2)))
    step1
  (step2.1, step2.2, e)

/-! ### `Element.tooltip` (element.py 107-117) -/

/-- Python `setattr` on the tooltip object. -/
def Tooltip.setattr (t : Tooltip) (k : String) (x : Option PropVal) : Tooltip :=
  { t with attrs := pyDictInsert t.attrs k x }

/-- `Element.tooltip`: build a `QTooltip`, apply each prop token to it via
`setattr`, attach it to the view and call `update()` unconditionally.  A
token with two or more `'='` makes `setattr(tooltip, *prop.split('='))` raise
`TypeError`, modelled as `none`.  The `Bool` records that `update()` was
invoked. -/
def Element.tooltip (e : Element) (v : View) (text : String) (props : String) :
    Option (View × Bool × Element) := do
  let t : Tooltip := { text := text, temp := false, attrs := [] }
  let t ← (pySplit props).foldlM (fun (t : Tooltip) p =>
      match pySplitOnChar '=' p with
      | [k, val] => some (t.setattr k (some (PropVal.str val)))
      | [_] => some (t.setattr p (some PropVal.tt))
      | _ => none) t
  pure ({ v with tooltips := v.tooltips ++ [t] }, true, e)

/-! ### `Element.update` (element.py 119-124) -/

/-- Modelled from the spec (asyncio is outside the repository):
`asyncio.get_running_loop()` returns the running event loop of the calling
context and raises `RuntimeError` when there is none. -/
def get_running_loop (loopRunning : Bool) : Except String Unit :=
  if loopRunning then Except.ok () else Except.error "RuntimeError"

/-- What a call to `update()` did. -/
inductive UpdateEffect : Type
  | noop
  | scheduledRedraw
deriving DecidableEq, Repr

/-- Modelled from the spec: `task_logger.create_task` (a repository module not
under the sources) defers the view's redraw coroutine onto the
already-running event loop and returns without raising. -/
def create_task : UpdateEffect := UpdateEffect.scheduledRedraw

/-- `Element.update`: probe for a running loop, swallow the `RuntimeError`
when there is none, otherwise schedule the redraw task. -/
def Element.update (loopRunning : Bool) : Except String UpdateEffect :=
  match get_running_loop loopRunning with
  | Except.error exc =>
    if exc = "RuntimeError" then Except.ok UpdateEffect.noop else Except.error exc
  | Except.ok _ => Except.ok create_task

/-! ### Visibility (element.py 13-19) -/

/-- Modelled from the third-party justpy interface: `view.set_class(c)` adds
the class to the view's class string when it is not already present. -/
def View.set_class (v : View) (c : String) : View :=
  if c ∈ pySplit v.classes then v
  else { v with classes := if v.classes = "" then c else v.classes ++ " " ++ c }

/-- Modelled from the third-party justpy interface: `view.remove_class(c)`
removes the class from the view's class string. -/
def View.remove_class (v : View) (c : String) : View :=
  { v with classes := pyJoin " " ((pySplit v.classes).filter (fun t => t ≠ c)) }

/-- `_handle_visibility_change`: toggle the `hidden` class according to the
new `visible` value, then call `update()`.  The `Bool` records that
`update()` was invoked. -/
def handle_visibility_change (v : View) (visible : Bool) : View × Bool :=
  ((if visible then v.remove_class "hidden" else v.set_class "hidden"), true)

/-- The view after a sequence of visibility changes, each dispatched through
`_handle_visibility_change` by the `visible` bindable property. -/
def applyVisibilitySeq (v : View) (vs : List Bool) : View :=
  vs.foldl (fun v b => (handle_visibility_change v b).1) v

/-! ### Visibility bindings (element.py 31-48)

`binding.bind_from` / `binding.bind_to` belong to the repository but are not
under the sources; following the spec ("propagate live state changes
(bindings) between the UI element and arbitrary application objects") a
binding is modelled as the record of its conversion function. -/

/-- Modelled from the spec: the binding installed by `binding.bind_from`,
driving the element's `visible` property from a target attribute of type `α`
through the `backward` conversion (`none` when the caller passed no
conversion). -/
structure BackwardBinding (α : Type) : Type where
  backward : Option (α → Bool)

/-- Modelled from the spec: `binding.bind_from` records the backward
conversion. -/
def bind_from {α : Type} (backward : Option (α → Bool)) : BackwardBinding α :=
  ⟨backward⟩

/-- Modelled from the spec: the binding installed by `binding.bind_to`,
pushing the element's `visible` property into a target attribute through the
`forward` conversion. -/
structure ForwardBinding (α : Type) : Type where
  forward : Bool → α

/-- Modelled from the spec: `binding.bind_to` records the forward
conversion. -/
def bind_to {α : Type} (forward : Bool → α) : ForwardBinding α :=
  ⟨forward⟩

/-- `Element.bind_visibility_to` (lines 31-33). -/
def Element.bind_visibility_to {α : Type} (e : Element) (forward : Bool → α) :
    ForwardBinding α × Element :=
  (bind_to forward, e)

/-- `Element.bind_visibility_from` (lines 35-40): with `value = some v` the
installed backward conversion is redefined to `lambda x: x == value`;
otherwise the caller-supplied `backward` is used. -/
def Element.bind_visibility_from {α : Type} [DecidableEq α] (e : Element)
    (backward : α → Bool) (value : Option α) : BackwardBinding α × Element :=
  let backward : α → Bool :=
    match value with
    | some v => fun x => decide (x = v)
    | none => backward
  (bind_from (some backward), e)

/-- `Element.bind_visibility` (lines 42-48): the `backward` parameter defaults
to `None`; with `value = some v` it is redefined to `lambda x: x == value`;
both a backward and a forward binding are installed. -/
def Element.bind_visibility {α : Type} [DecidableEq α] (e : Element)
    (forward : Bool → α) (backward : Option (α → Bool)) (value : Option α) :
    BackwardBinding α × ForwardBinding α × Element :=
  let backward : Option (α → Bool) :=
    match value with
    | some v => some (fun x => decide (x = v))
    | none => backward
  (bind_from backward, bind_to forward, e)

/-! ### `Element.__init__` (element.py 21-29) -/

/-- A page of the surrounding runtime, identified by its id. -/
structure Page : Type where
  id : Nat
deriving DecidableEq, Repr

/-- Modelled from the third-party justpy interface and the repository's
`page` module (not under the sources): the slice of the parent view that
`Element.__init__` touches — the component list `add` appends to and the
`pages` dict the assertion inspects. -/
structure ParentView : Type where
  components : List Nat
  pages : List (Nat × Page)
deriving DecidableEq, Repr

/-- The element state produced by a successful `Element.__init__`. -/
structure InitResult : Type where
  page : Page
  view_pages : List Page
  visible : Bool
deriving DecidableEq, Repr

/-- `Element.__init__`: `get_current_view()` is modelled from the spec
(page/view construction is outside the sources) by passing the current parent
view as an argument.  The parent `add`s the view first; then the constructor
asserts that the parent belongs to exactly one page.  On failure the
`AssertionError` escapes (second component `none`) with the view already
added; on success the element's page is the unique page of the parent, the
view is registered with it via `add_page`, and `visible` is initialised to
`True`. -/
def Element.init (parent_view : ParentView) (viewId : Nat) (view_pages : List Page) :
    ParentView × Option InitResult :=
  let parent_view :=
    { parent_view with components := parent_view.components ++ [viewId] }
  if parent_view.pages.length = 1 then
    let page := (parent_view.pages.map Prod.snd).headD ⟨0⟩
    (parent_view,
     some { page := page, view_pages := view_pages ++ [page], visible := true })
  else (parent_view, none)

/-! ### Spec-side formulations

For the refinement claims C1 and C2 a second definition follows the
specification's own words; the theorems compare it with the embedding of the
source above. -/

/-- Duplicate removal keeping the first occurrence of each class name, the
way the spec phrases it. -/
def dedupFirst : List String → List String
  | [] => []
  | x :: xs => x :: dedupFirst (xs.filter (fun y => y ≠ x))
termination_by l => l.length
decreasing_by
  simp only [List.length_cons]
  exact Nat.lt_succ_of_le (List.length_filter_le _ _)

/-- Spec wording of the class string after `classes(add, remove, replace)`:
the previous space-separated class list (or the empty list when `replace` is
given) with every class listed in `remove` filtered out, then the classes of
`add` appended, then the classes of `replace` appended, duplicates removed
preserving first occurrence, joined by single spaces. -/
def specClasses (previous : String) (add remove replaceArg : Option String) : String :=
  let base := if replaceArg.isSome then [] else pySplit previous
  let kept := base.filter (fun c => c ∉ pySplit (remove.getD ""))
  let full := kept ++ pySplit (add.getD "") ++ pySplit (replaceArg.getD "")
  pyJoin " " (dedupFirst full)

/-- Spec wording of the style string after `style(add, remove, replace)`:
serialize (entries `key:value` joined by `;`) the dictionary obtained by
parsing the previous style string (or starting from the empty dictionary when
`replace` is given), deleting every key parsed from `remove`, then merging in
the pairs parsed from `add`, then the pairs parsed from `replace`, later
merges overriding earlier values. -/
def specStyleString (previous : String) (add remove replaceArg : Option String) :
    Option String := do
  let base ←
    if replaceArg.isSome then pure []
    else styleStrToDict (some (stripSemiSpace previous))
  let rm ← styleStrToDict remove
  let deleted := base.filter (fun kv => kv.1 ∉ rm.map Prod.fst)
  let ad ← styleStrToDict add
  let rp ← styleStrToDict replaceArg
  pure (styleStringOfDict (pyDictUpdate (pyDictUpdate deleted ad) rp))

/-! ### Lemmas: Python dictionaries -/

/-- `List.lookup` misses every key outside the key list. -/
theorem lookup_eq_none_of_not_mem {α : Type} {d : List (String × α)} {k : String}
    (h : k ∉ d.map Prod.fst) : d.lookup k = none := by
  rw [List.lookup_eq_none_iff]
  intro p hp
  have hmem : p.1 ∈ d.map Prod.fst := List.mem_map.mpr ⟨p, hp, rfl⟩
  exact bne_iff_ne.mpr (fun he => h (by rw [he]; exact hmem))

/-- A found entry continues to be found after appending on the right. -/
theorem lookup_append_left_of_some {α : Type} {d : List (String × α)} (l : List (String × α))
    {k : String} {b : α} (h : d.lookup k = some b) : (d ++ l).lookup k = some b := by
  induction d with
  | nil => simp [List.lookup] at h
  | cons kv d ih =>
    obtain ⟨a, c⟩ := kv
    rw [List.lookup_cons] at h
    rw [List.cons_append, List.lookup_cons]
    cases hbe : (k == a) with
    | true => rw [hbe] at h; exact h
    | false => rw [hbe] at h; exact ih h

/-- A miss on the left defers the lookup to the right part. -/
theorem lookup_append_right_of_none {α : Type} {d : List (String × α)} (l : List (String × α))
    {k : String} (h : d.lookup k = none) : (d ++ l).lookup k = l.lookup k := by
  induction d with
  | nil => rfl
  | cons kv d ih =>
    obtain ⟨a, c⟩ := kv
    rw [List.lookup_cons] at h
    rw [List.cons_append, List.lookup_cons]
    cases hbe : (k == a) with
    | true => rw [hbe] at h; exact absurd h (by simp)
    | false => rw [hbe] at h; exact ih h

/-- Overwriting the entries of key `k` does not disturb a lookup of another
key. -/
theorem lookup_map_overwrite {α : Type} (d : List (String × α)) {k k' : String} (v : α)
    (hne : k' ≠ k) :
    (d.map (fun kv => if kv.1 = k then (k, v) else kv)).lookup k' = d.lookup k' := by
  induction d with
  | nil => rfl
  | cons kv d ih =>
    obtain ⟨a, c⟩ := kv
    by_cases h : a = k
    · have h2 : (k' == a) = false := beq_false_of_ne (by rw [h]; exact hne)
      simp only [List.map_cons, if_pos h, List.lookup_cons, beq_false_of_ne hne, h2, ih]
    · simp only [List.map_cons, if_neg h, List.lookup_cons]
      cases hbe : (k' == a) with
      | true => rfl
      | false => exact ih

/-- Overwriting the entries of a present key `k` makes its lookup return the
new value. -/
theorem lookup_map_overwrite_hit {α : Type} (d : List (String × α)) {k : String} (v : α)
    (hmem : k ∈ d.map Prod.fst) :
    (d.map (fun kv => if kv.1 = k then (k, v) else kv)).lookup k = some v := by
  induction d with
  | nil => simp at hmem
  | cons kv d ih =>
    obtain ⟨a, c⟩ := kv
    by_cases h : a = k
    · simp [List.lookup_cons, if_pos h]
    · have hmem' : k ∈ d.map Prod.fst := by
        simp only [List.map_cons, List.mem_cons] at hmem
        exact hmem.resolve_left (fun he => h he.symm)
      simp only [List.map_cons, if_neg h, List.lookup_cons,
        beq_false_of_ne (fun he => h (he : k = a).symm)]
      exact ih hmem'

/-- The characteristic equation of `pyDictInsert`. -/
theorem lookup_pyDictInsert {α : Type} (d : List (String × α)) (k k' : String) (v : α) :
    (pyDictInsert d k v).lookup k' = if k' = k then some v else d.lookup k' := by
  unfold pyDictInsert
  by_cases hmem : k ∈ d.map Prod.fst
  · rw [if_pos hmem]
    by_cases he : k' = k
    · subst he; rw [if_pos rfl]; exact lookup_map_overwrite_hit d v hmem
    · rw [if_neg he]; exact lookup_map_overwrite d v he
  · rw [if_neg hmem]
    by_cases he : k' = k
    · subst he
      rw [if_pos rfl, lookup_append_right_of_none _ (lookup_eq_none_of_not_mem hmem)]
      simp [List.lookup_cons]
    · rw [if_neg he]
      cases hd : d.lookup k' with
      | some b => rw [lookup_append_left_of_some _ hd]
      | none =>
        rw [lookup_append_right_of_none _ hd]
        simp [List.lookup_cons, beq_false_of_ne he]

/-- The key list of `pyDictInsert`. -/
theorem keys_pyDictInsert {α : Type} (d : List (String × α)) (k : String) (v : α) :
    (pyDictInsert d k v).map Prod.fst =
      if k ∈ d.map Prod.fst then d.map Prod.fst else d.map Prod.fst ++ [k] := by
  unfold pyDictInsert
  by_cases hmem : k ∈ d.map Prod.fst
  · rw [if_pos hmem, if_pos hmem, List.map_map]
    refine List.map_congr_left (fun kv _ => ?_)
    by_cases h : kv.1 = k <;> simp [h, Function.comp]
  · rw [if_neg hmem, if_neg hmem]
    simp

/-- `pyDictInsert` keeps the key list duplicate-free. -/
theorem nodup_keys_pyDictInsert {α : Type} (d : List (String × α)) (k : String) (v : α)
    (h : (d.map Prod.fst).Nodup) : ((pyDictInsert d k v).map Prod.fst).Nodup := by
  rw [keys_pyDictInsert]
  by_cases hmem : k ∈ d.map Prod.fst
  · simpa [hmem] using h
  · rw [if_neg hmem, List.nodup_append]
    exact ⟨h, List.nodup_singleton _, fun x hx hxk => hmem (by
      rw [List.mem_singleton] at hxk
      rwa [hxk] at hx)⟩

/-- Every dict a Python comprehension builds has duplicate-free keys. -/
theorem nodup_keys_pyDictOfList {α : Type} (l : List (String × α)) :
    ((pyDictOfList l).map Prod.fst).Nodup := by
  have gen : ∀ d : List (String × α), (d.map Prod.fst).Nodup →
      (((l.foldl (fun d kv => pyDictInsert d kv.1 kv.2) d)).map Prod.fst).Nodup := by
    induction l with
    | nil => exact fun d h => h
    | cons kv l ih => exact fun d h => ih _ (nodup_keys_pyDictInsert _ _ _ h)
  exact gen [] (by simp)

/-- The key lists of the prop dicts are duplicate-free. -/
theorem propsStrToDict_keys_nodup (s : Option String) :
    ((propsStrToDict s).map Prod.fst).Nodup := by
  unfold propsStrToDict
  cases s with
  | none => simp
  | some s => by_cases h : s = "" <;> simp [h, nodup_keys_pyDictOfList]

/-- `dedupFirst` one-step equation. -/
theorem dedupFirst_cons (x : String) (xs : List String) :
    dedupFirst (x :: xs) = x :: dedupFirst (xs.filter (fun y => y ≠ x)) := by
  rw [dedupFirst]

/-- The characteristic equation of `setattr` / `getattr`. -/
theorem getattr_setattr (v : View) (k k' : String) (x : Option PropVal) :
    (v.setattr k x).getattr k' = if k' = k then x else v.getattr k' := by
  unfold View.setattr View.getattr
  simp only
  rw [lookup_pyDictInsert]
  by_cases he : k' = k <;> simp [he]

/-- `pyFromKeys` is `dedupFirst` running behind an accumulator. -/
theorem pyFromKeys_go (l : List String) : ∀ acc : List String,
    l.foldl (fun acc x => if x ∈ acc then acc else acc ++ [x]) acc
      = acc ++ dedupFirst (l.filter (fun x => x ∉ acc)) := by
  induction l with
  | nil => intro acc; simp [dedupFirst]
  | cons x xs ih =>
    intro acc
    by_cases hx : x ∈ acc
    · rw [List.foldl_cons, if_pos hx, ih, List.filter_cons]
      simp [hx]
    · rw [List.foldl_cons, if_neg hx, ih]
      have h1 : List.filter (fun y => decide (y ∉ acc)) (x :: xs)
          = x :: List.filter (fun y => decide (y ∉ acc)) xs := by
        simp [List.filter_cons, hx]
      rw [h1, dedupFirst_cons, List.filter_filter]
      have h2 : List.filter (fun a => decide (a ≠ x) && decide (a ∉ acc)) xs
          = List.filter (fun y => decide (y ∉ acc ++ [x])) xs := by
        refine List.filter_congr (fun y _ => ?_)
        by_cases hy1 : y ∈ acc <;> by_cases hy2 : y = x <;> simp [hy1, hy2]
      rw [h2]
      simp

/-- `dict.fromkeys` deduplication equals first-occurrence recursion. -/
theorem pyFromKeys_eq_dedupFirst (l : List String) : pyFromKeys l = dedupFirst l := by
  unfold pyFromKeys
  rw [pyFromKeys_go]
  simp

/-- Invariant of the `remove` loop of `Element.props`: every removed key ends
at `None`, other keys are untouched, and `needs_update` is raised exactly when
some removed key was previously set. -/
theorem props_remove_fold (ks : List String) (hnd : ks.Nodup) : ∀ (v : View) (b : Bool),
    (∀ k', (ks.foldl (fun (acc : View × Bool) k =>
        (acc.1.setattr k none, acc.2 || decide (acc.1.getattr k ≠ none))) (v, b)).1.getattr k'
      = if k' ∈ ks then none else v.getattr k')
  ∧ ((ks.foldl (fun (acc : View × Bool) k =>
        (acc.1.setattr k none, acc.2 || decide (acc.1.getattr k ≠ none))) (v, b)).2 = true
      ↔ b = true ∨ ∃ k ∈ ks, v.getattr k ≠ none) := by
  induction ks with
  | nil => intro v b; simp
  | cons k ks ih =>
    intro v b
    obtain ⟨hk, hnd2⟩ := List.nodup_cons.mp hnd
    have ih2 := ih hnd2 (v.setattr k none) (b || decide (v.getattr k ≠ none))
    rw [List.foldl_cons]
    constructor
    · intro k'
      rw [ih2.1 k', getattr_setattr]
      by_cases h1 : k' ∈ ks <;> by_cases h2 : k' = k <;>
        simp [h1, h2, List.mem_cons]
    · rw [ih2.2]
      have hcong : (∃ x ∈ ks, (v.setattr k none).getattr x ≠ none)
          ↔ ∃ x ∈ ks, v.getattr x ≠ none := by
        refine exists_congr fun x => and_congr_right fun hmem => ?_
        rw [getattr_setattr, if_neg (fun he => hk (by rw [← he]; exact hmem))]
      rw [hcong]
      simp [List.mem_cons, or_assoc, exists_eq_or_imp, Decidable.not_not]

/-- Invariant of the `add` loop of `Element.props`: every added key ends at
its dict value, other keys are untouched, and `needs_update` is raised exactly
when some added pair differed from the state the loop started from. -/
theorem props_add_fold (ps : List (String × PropVal)) (hnd : (ps.map Prod.fst).Nodup) :
    ∀ (v : View) (b : Bool),
    (∀ k', (ps.foldl (fun (acc : View × Bool) kv =>
        (acc.1.setattr kv.1 (some kv.2),
         acc.2 || decide (acc.1.getattr kv.1 ≠ some kv.2))) (v, b)).1.getattr k'
      = ((ps.lookup k').map some).getD (v.getattr k'))
  ∧ ((ps.foldl (fun (acc : View × Bool) kv =>
        (acc.1.setattr kv.1 (some kv.2),
         acc.2 || decide (acc.1.getattr kv.1 ≠ some kv.2))) (v, b)).2 = true
      ↔ b = true ∨ ∃ kv ∈ ps, v.getattr kv.1 ≠ some kv.2) := by
  induction ps with
  | nil => intro v b; simp
  | cons kv ps ih =>
    obtain ⟨a, w⟩ := kv
    intro v b
    simp only [List.map_cons, List.nodup_cons] at hnd
    obtain ⟨ha, hnd2⟩ := hnd
    have ih2 := ih hnd2 (v.setattr a (some w)) (b || decide (v.getattr a ≠ some w))
    rw [List.foldl_cons]
    constructor
    · intro k'
      rw [ih2.1 k', List.lookup_cons]
      by_cases he : k' = a
      · subst he
        rw [beq_self_eq_true]
        simp [lookup_eq_none_of_not_mem ha, getattr_setattr]
      · rw [beq_false_of_ne he]
        cases hp : ps.lookup k' with
        | some u => simp [hp]
        | none => simp [hp, getattr_setattr, if_neg he]
    · rw [ih2.2]
      have hcong : (∃ x ∈ ps, (v.setattr a (some w)).getattr x.1 ≠ some x.2)
          ↔ ∃ x ∈ ps, v.getattr x.1 ≠ some x.2 := by
        refine exists_congr fun x => and_congr_right fun hmem => ?_
        have hx : x.1 ≠ a := fun he => ha (he ▸ List.mem_map.mpr ⟨x, hmem, rfl⟩)
        rw [getattr_setattr, if_neg hx]
      rw [hcong]
      simp [List.mem_cons, or_assoc, exists_eq_or_imp, Decidable.not_not]

/-- Keys of a filtered dict are keys of the dict. -/
theorem mem_keys_of_mem_keys_filter {α : Type} {d : List (String × α)}
    {p : String × α → Bool} {k : String} (h : k ∈ (d.filter p).map Prod.fst) :
    k ∈ d.map Prod.fst := by
  obtain ⟨kv, hkv, rfl⟩ := List.mem_map.mp h
  exact List.mem_map.mpr ⟨kv, (List.mem_filter.mp hkv).1, rfl⟩

/-- A successful run of the deletion loop removes exactly the entries whose
key is listed. -/
theorem pyDictDelAll_some_eq_filter {α : Type} (ks : List String) :
    ∀ d d' : List (String × α), pyDictDelAll d ks = some d' →
      d' = d.filter (fun kv => kv.1 ∉ ks) := by
  induction ks with
  | nil =>
    intro d d' h
    simp [pyDictDelAll] at h
    simp [← h]
  | cons k ks ih =>
    intro d d' h
    rw [pyDictDelAll, List.foldlM_cons] at h
    cases hdel : pyDictDel d k with
    | none => rw [hdel] at h; simp at h
    | some d1 =>
      rw [hdel] at h
      simp only [Option.bind_eq_bind, Option.some_bind] at h
      have h2 := ih d1 d' h
      unfold pyDictDel at hdel
      by_cases hmem : k ∈ d.map Prod.fst
      · rw [if_pos hmem] at hdel
        obtain rfl : d.filter (fun kv => kv.1 ≠ k) = d1 := by
          simpa using hdel
        rw [h2, List.filter_filter]
        refine List.filter_congr (fun kv _ => ?_)
        by_cases h3 : kv.1 = k <;> by_cases h4 : kv.1 ∈ ks <;>
          simp [h3, h4, List.mem_cons]
      · rw [if_neg hmem] at hdel; exact absurd hdel (by simp)

/-- The deletion loop fails as soon as some listed key is absent. -/
theorem pyDictDelAll_none_of_missing {α : Type} (ks : List String) (k : String) :
    ∀ d : List (String × α), k ∈ ks → k ∉ d.map Prod.fst →
      pyDictDelAll d ks = none := by
  induction ks with
  | nil => intro d hk; simp at hk
  | cons k1 ks ih =>
    intro d hk hmiss
    rw [pyDictDelAll, List.foldlM_cons]
    by_cases h1 : k1 ∈ d.map Prod.fst
    · rw [show pyDictDel d k1 = some (d.filter (fun kv => kv.1 ≠ k1)) from by
        unfold pyDictDel; rw [if_pos h1]]
      simp only [Option.bind_eq_bind, Option.some_bind]
      have hne : k ≠ k1 := fun he => hmiss (he ▸ h1)
      have hk2 : k ∈ ks := (List.mem_cons.mp hk).resolve_left hne
      exact ih _ hk2 (fun hc => hmiss (mem_keys_of_mem_keys_filter hc))
    · rw [show pyDictDel d k1 = none from by unfold pyDictDel; rw [if_neg h1]]
      rfl

/-- Rebuilding a string from its characters. -/
theorem stringMk_data (s : String) : String.mk s.data = s := rfl

/-- `wsTokensAux` one-step equation on the empty input. -/
theorem wsTokensAux_nil (cur : List Char) :
    wsTokensAux cur [] = if cur.isEmpty then [] else [String.mk cur.reverse] := rfl

/-- `wsTokensAux` one-step equation on a first character. -/
theorem wsTokensAux_cons (cur : List Char) (c : Char) (cs : List Char) :
    wsTokensAux cur (c :: cs) =
      if c.isWhitespace then
        (if cur.isEmpty then wsTokensAux [] cs
         else String.mk cur.reverse :: wsTokensAux [] cs)
      else wsTokensAux (c :: cur) cs := rfl

/-- The tokeniser distributes over a separating space. -/
theorem wsTokensAux_append_space (l r : List Char) : ∀ cur : List Char,
    wsTokensAux cur (l ++ ' ' :: r) = wsTokensAux cur l ++ wsTokensAux [] r := by
  induction l with
  | nil =>
    intro cur
    simp only [List.nil_append]
    rw [wsTokensAux_cons, wsTokensAux_nil]
    rw [if_pos (by decide : (' ').isWhitespace = true)]
    by_cases hc : cur.isEmpty
    · rw [if_pos hc, if_pos hc]; simp
    · rw [if_neg hc, if_neg hc]; simp
  | cons c cs ih =>
    intro cur
    simp only [List.cons_append]
    rw [wsTokensAux_cons, wsTokensAux_cons]
    by_cases hw : c.isWhitespace
    · rw [if_pos hw, if_pos hw]
      by_cases hc : cur.isEmpty
      · rw [if_pos hc, if_pos hc, ih]
      · rw [if_neg hc, if_neg hc, ih, List.cons_append]
    · rw [if_neg hw, if_neg hw, ih]

/-- On a nonempty whitespace-free input the tokeniser yields one token. -/
theorem wsTokensAux_all_nonws (l : List Char)
    (hl : ∀ c ∈ l, c.isWhitespace = false) : ∀ cur : List Char,
    (cur.isEmpty = false ∨ l ≠ []) →
      wsTokensAux cur l = [String.mk (cur.reverse ++ l)] := by
  induction l with
  | nil =>
    intro cur h
    have hc : cur.isEmpty = false := by
      rcases h with h | h
      · exact h
      · exact absurd rfl h
    rw [wsTokensAux_nil, if_neg (by simp [hc])]
    simp
  | cons c cs ih =>
    intro cur h
    have hw : c.isWhitespace = false := hl c (by simp)
    rw [wsTokensAux_cons, if_neg (by simp [hw])]
    rw [ih (fun x hx => hl x (by simp [hx])) (c :: cur) (Or.inl rfl)]
    simp

/-- Every token the tokeniser emits is nonempty and whitespace-free. -/
theorem wsTokensAux_tokens_wf (l : List Char) : ∀ cur : List Char,
    (∀ c ∈ cur, c.isWhitespace = false) →
    ∀ t ∈ wsTokensAux cur l, t.data ≠ [] ∧ ∀ c ∈ t.data, c.isWhitespace = false := by
  induction l with
  | nil =>
    intro cur hcur t ht
    rw [wsTokensAux_nil] at ht
    by_cases hc : cur.isEmpty
    · rw [if_pos hc] at ht; simp at ht
    · rw [if_neg hc] at ht
      rw [List.mem_singleton] at ht
      subst ht
      refine ⟨by simpa [List.isEmpty_iff] using hc, fun c hc2 => ?_⟩
      exact hcur c (List.mem_reverse.mp hc2)
  | cons c cs ih =>
    intro cur hcur t ht
    rw [wsTokensAux_cons] at ht
    by_cases hw : c.isWhitespace
    · rw [if_pos hw] at ht
      by_cases hc : cur.isEmpty
      · rw [if_pos hc] at ht
        exact ih [] (by simp) t ht
      · rw [if_neg hc] at ht
        rcases List.mem_cons.mp ht with rfl | ht2
        · refine ⟨by simpa [List.isEmpty_iff] using hc, fun x hx => ?_⟩
          exact hcur x (List.mem_reverse.mp hx)
        · exact ih [] (by simp) t ht2
    · rw [if_neg hw] at ht
      refine ih (c :: cur) ?_ t ht
      intro x hx
      rcases List.mem_cons.mp hx with rfl | hx2
      · simpa using hw
      · exact hcur x hx2

/-- Splitting undoes joining on nonempty whitespace-free tokens. -/
theorem pySplit_pyJoin (ts : List String)
    (h : ∀ t ∈ ts, t.data ≠ [] ∧ ∀ c ∈ t.data, c.isWhitespace = false) :
    pySplit (pyJoin " " ts) = ts := by
  induction ts with
  | nil => rfl
  | cons t ts ih =>
    cases ts with
    | nil =>
      obtain ⟨hne, hwf⟩ := h t (by simp)
      show pySplit t = [t]
      unfold pySplit
      rw [wsTokensAux_all_nonws t.data hwf [] (Or.inr hne)]
      simp [stringMk_data]
    | cons t2 ts2 =>
      have hj : pyJoin " " (t :: t2 :: ts2) = t ++ " " ++ pyJoin " " (t2 :: ts2) := rfl
      obtain ⟨hne, hwf⟩ := h t (by simp)
      unfold pySplit
      rw [hj]
      have hdata : (t ++ " " ++ pyJoin " " (t2 :: ts2)).data
          = t.data ++ ' ' :: (pyJoin " " (t2 :: ts2)).data := by
        rw [String.data_append, String.data_append]
        simp
      rw [hdata, wsTokensAux_append_space,
        wsTokensAux_all_nonws t.data hwf [] (Or.inr hne)]
      have ih2 : wsTokensAux [] (pyJoin " " (t2 :: ts2)).data = t2 :: ts2 :=
        ih (fun x hx => h x (List.mem_cons_of_mem t hx))
      rw [ih2]
      simp [stringMk_data]

/-- `set_class` guarantees membership of the class. -/
theorem hidden_mem_set_class (v : View) :
    "hidden" ∈ pySplit (v.set_class "hidden").classes := by
  unfold View.set_class
  by_cases hmem : "hidden" ∈ pySplit v.classes
  · rw [if_pos hmem]; exact hmem
  · rw [if_neg hmem]
    by_cases hemp : v.classes = ""
    · rw [if_pos hemp]
      show "hidden" ∈ pySplit "hidden"
      decide
    · rw [if_neg hemp]
      show "hidden" ∈ pySplit (v.classes ++ " " ++ "hidden")
      unfold pySplit
      have hdata : (v.classes ++ " " ++ "hidden").data
          = v.classes.data ++ ' ' :: ("hidden" : String).data := by
        rw [String.data_append, String.data_append]
        simp
      rw [hdata, wsTokensAux_append_space]
      refine List.mem_append.mpr (Or.inr ?_)
      decide

/-- `remove_class` guarantees absence of the class. -/
theorem hidden_not_mem_remove_class (v : View) :
    "hidden" ∉ pySplit (v.remove_class "hidden").classes := by
  unfold View.remove_class
  have hwf : ∀ t ∈ (pySplit v.classes).filter (fun t => t ≠ "hidden"),
      t.data ≠ [] ∧ ∀ c ∈ t.data, c.isWhitespace = false := by
    intro t ht
    exact wsTokensAux_tokens_wf v.classes.data [] (by simp) t (List.mem_filter.mp ht).1
  show "hidden" ∉ pySplit (pyJoin " " ((pySplit v.classes).filter (fun t => t ≠ "hidden")))
  rw [pySplit_pyJoin _ hwf]
  intro hmem
  have h2 := (List.mem_filter.mp hmem).2
  simp at h2

/-- One visibility change puts the view's `hidden` class in the state the new
`visible` value dictates. -/
theorem handle_visibility_hidden (v : View) (b : Bool) :
    "hidden" ∈ pySplit (handle_visibility_change v b).1.classes ↔ b = false := by
  cases b with
  | false =>
    simp only [handle_visibility_change, if_neg (by simp : ¬(false = true))]
    simpa using hidden_mem_set_class v
  | true =>
    simp only [handle_visibility_change, if_pos rfl]
    simpa using hidden_not_mem_remove_class v

/-- A successful `style_dict` computation matches the spec's description of
the dictionary pipeline. -/
theorem styleDictOf_spec (previous : String) (add remove replaceArg : Option String)
    (d : List (String × String)) (h : styleDictOf previous add remove replaceArg = some d) :
    specStyleString previous add remove replaceArg = some (styleStringOfDict d) := by
  unfold styleDictOf at h
  unfold specStyleString
  cases replaceArg with
  | none =>
    rw [show baseStyleDict previous none
        = styleStrToDict (some (stripSemiSpace previous)) from if_pos rfl] at h
    rw [if_neg (by simp)]
    cases hbase : styleStrToDict (some (stripSemiSpace previous)) with
    | none => rw [hbase] at h; simp at h
    | some base =>
      rw [hbase] at h
      simp only [Option.pure_def, Option.bind_eq_bind, Option.some_bind] at h ⊢
      cases hrm : styleStrToDict remove with
      | none => rw [hrm] at h; simp at h
      | some rm =>
        rw [hrm] at h
        simp only [Option.some_bind] at h ⊢
        cases hdel : pyDictDelAll base (rm.map Prod.fst) with
        | none => rw [hdel] at h; simp at h
        | some sd2 =>
          rw [hdel] at h
          simp only [Option.some_bind] at h
          cases had : styleStrToDict add with
          | none => rw [had] at h; simp at h
          | some ad =>
            rw [had] at h
            simp only [Option.some_bind, styleStrToDict] at h ⊢
            obtain rfl : pyDictUpdate (pyDictUpdate sd2 ad) [] = d := by
              simpa using h
            rw [pyDictDelAll_some_eq_filter _ _ _ hdel]
  | some r =>
    rw [show baseStyleDict previous (some r) = pure [] from if_neg (by simp)] at h
    rw [if_pos (by simp : ((some r : Option String)).isSome = true)]
    simp only [Option.pure_def, Option.bind_eq_bind, Option.some_bind] at h ⊢
    cases hrm : styleStrToDict remove with
    | none => rw [hrm] at h; simp at h
    | some rm =>
      rw [hrm] at h
      simp only [Option.some_bind] at h ⊢
      cases hdel : pyDictDelAll [] (rm.map Prod.fst) with
      | none => rw [hdel] at h; simp at h
      | some sd2 =>
        rw [hdel] at h
        simp only [Option.some_bind] at h
        cases had : styleStrToDict add with
        | none => rw [had] at h; simp at h
        | some ad =>
          rw [had] at h
          simp only [Option.some_bind] at h ⊢
          cases hrp : styleStrToDict (some r) with
          | none => rw [hrp] at h; simp at h
          | some rp =>
            rw [hrp] at h
            simp only [Option.some_bind] at h ⊢
            obtain rfl : pyDictUpdate (pyDictUpdate sd2 ad) rp = d := by
              simpa using h
            have hsd2 : sd2 = [] := by
              have := pyDictDelAll_some_eq_filter _ _ _ hdel
              simpa using this
            rw [hsd2]
            simp

/-! ### Claim theorems -/

/-- The class string after `Element.classes` always equals the recomputed
string, whether or not it was written back. -/
theorem classes_result_classes (e : Element) (v : View)
    (add remove replaceArg : Option String) :
    (Element.classes e v add remove replaceArg).1.classes
      = computeClasses v.classes add remove replaceArg := by
  unfold Element.classes
  by_cases h : v.classes = computeClasses v.classes add remove replaceArg
  · rw [if_neg (not_not_intro h)]
    exact h
  · rw [if_pos h]

/-- C1: for every element and every call to `classes(add, remove, replace)`,
the resulting class string of the view equals the previous space-separated
class list (or the empty list when `replace` is given) with every class of
`remove` filtered out, then the classes of `add` appended, then the classes
of `replace` appended, duplicates removed preserving first occurrence, joined
by single spaces. -/
theorem C1_classes_follow_spec (e : Element) (v : View)
    (add remove replaceArg : Option String) :
    (Element.classes e v add remove replaceArg).1.classes
      = specClasses v.classes add remove replaceArg := by
  rw [classes_result_classes]
  unfold computeClasses specClasses
  cases replaceArg with
  | none => simp [pyFromKeys_eq_dedupFirst]
  | some r => simp [pyFromKeys_eq_dedupFirst]

/-- C2: for every element and every completing call to
`style(add, remove, replace)`, the resulting style string of the view is the
serialization of the dictionary obtained by parsing the previous style string
(or starting empty when `replace` is given), deleting every key parsed from
`remove`, then merging the pairs of `add`, then those of `replace`, later
merges overriding earlier values. -/
theorem C2_style_follows_spec (e : Element) (v : View)
    (add remove replaceArg : Option String) (res : View × Bool × Element)
    (h : Element.style e v add remove replaceArg = some res) :
    specStyleString v.style add remove replaceArg = some res.1.style := by
  unfold Element.style at h
  cases hd : styleDictOf v.style add remove replaceArg with
  | none => rw [hd] at h; simp at h
  | some d =>
    rw [hd] at h
    simp only [Option.pure_def, Option.bind_eq_bind, Option.some_bind] at h
    rw [styleDictOf_spec _ _ _ _ _ hd]
    by_cases hne : v.style = styleStringOfDict d
    · rw [if_neg (not_not_intro hne)] at h
      obtain rfl : (v, false, e) = res := by simpa using h
      simp [hne]
    · rw [if_pos hne] at h
      obtain rfl : ({ v with style := styleStringOfDict d }, true, e) = res := by
        simpa using h
      rfl

/-- C2 witness: a concrete completing `style` call, its hypotheses
discharged by evaluation. -/
theorem C2_style_follows_spec_witness :
    specStyleString "color:red" (some "margin:0") none none
      = some "color:red;margin:0" :=
  C2_style_follows_spec ⟨0⟩ ⟨"", "color:red", [], []⟩ (some "margin:0") none none
    ({ classes := "", style := "color:red;margin:0", attrs := [], tooltips := [] },
      true, ⟨0⟩)
    (by decide)

/-- A failing `style_dict` computation makes the whole `style` call fail. -/
theorem style_none_of_dict_none (e : Element) (v : View)
    (add remove replaceArg : Option String)
    (h : styleDictOf v.style add remove replaceArg = none) :
    Element.style e v add remove replaceArg = none := by
  unfold Element.style
  rw [h]
  rfl

/-- C9: a `style` call whose `remove` parses to a key absent from the
starting dictionary (for example because `replace` was given, which empties
it) raises `KeyError`: no style string and no redraw request is produced. -/
theorem C9_style_remove_missing_key (e : Element) (v : View)
    (add remove replaceArg : Option String)
    (d0 rm : List (String × String)) (k : String)
    (hbase : baseStyleDict v.style replaceArg = some d0)
    (hrm : styleStrToDict remove = some rm)
    (hk : k ∈ rm.map Prod.fst) (hmiss : k ∉ d0.map Prod.fst) :
    Element.style e v add remove replaceArg = none := by
  apply style_none_of_dict_none
  unfold styleDictOf
  rw [hbase]
  simp only [Option.pure_def, Option.bind_eq_bind, Option.some_bind]
  rw [hrm]
  simp only [Option.some_bind]
  rw [pyDictDelAll_none_of_missing (rm.map Prod.fst) k d0 hk hmiss]
  rfl

/-- C9 witness: `style(remove='margin:0', replace='width:1px')` on a view
raises `KeyError` because `replace` empties the starting dictionary. -/
theorem C9_style_remove_missing_key_witness :
    Element.style ⟨0⟩ ⟨"", "color:red", [], []⟩ none (some "margin:0")
      (some "width:1px") = none :=
  C9_style_remove_missing_key ⟨0⟩ ⟨"", "color:red", [], []⟩ none (some "margin:0")
    (some "width:1px") [] [("margin", "0")] "margin"
    (by decide) (by decide) (by decide) (by decide)

/-- C3: `props(add, remove)` sets the attribute of every prop named in
`remove` to `None` and the attribute of every `key=value` token of `add` to
its value (`True` for a bare token), with `add` applied after `remove`; all
other attributes are untouched. -/
theorem C3_props_set_and_remove (e : Element) (v : View) (add remove : Option String)
    (k : String) :
    (Element.props e v add remove).1.getattr k
      = match (propsStrToDict add).lookup k with
        | some val => some val
        | none =>
          if k ∈ (propsStrToDict remove).map Prod.fst then none
          else v.getattr k := by
  have hrm := props_remove_fold ((propsStrToDict remove).map Prod.fst)
      (propsStrToDict_keys_nodup remove) v false
  have hadd := props_add_fold (propsStrToDict add) (propsStrToDict_keys_nodup add)
      (((propsStrToDict remove).map Prod.fst).foldl
        (fun (acc : View × Bool) k =>
          (acc.1.setattr k none, acc.2 || decide (acc.1.getattr k ≠ none))) (v, false)).1
      (((propsStrToDict remove).map Prod.fst).foldl
        (fun (acc : View × Bool) k =>
          (acc.1.setattr k none, acc.2 || decide (acc.1.getattr k ≠ none))) (v, false)).2
  have hfinal : (Element.props e v add remove).1.getattr k
      = (((propsStrToDict add).lookup k).map some).getD
          ((((propsStrToDict remove).map Prod.fst).foldl
            (fun (acc : View × Bool) k =>
              (acc.1.setattr k none, acc.2 || decide (acc.1.getattr k ≠ none)))
            (v, false)).1.getattr k) := hadd.1 k
  rw [hfinal, hrm.1 k]
  cases hl : (propsStrToDict add).lookup k <;> simp [hl]

/-- C4 counterexample: `props(add='x=1', remove='x')` on a view whose `x`
prop is already `'1'` leaves the view state unchanged and still invokes
`update()`: the remove loop flags the previously-set prop, the add loop then
rewrites the original value.  Hence `update()` is not invoked exactly when
the computed state differs from the current state. -/
theorem C4_counterexample_update_without_diff :
    ((Element.props ⟨0⟩ ⟨"", "", [("x", some (PropVal.str "1"))], []⟩
        (some "x=1") (some "x")).1
      = ⟨"", "", [("x", some (PropVal.str "1"))], []⟩)
  ∧ ((Element.props ⟨0⟩ ⟨"", "", [("x", some (PropVal.str "1"))], []⟩
        (some "x=1") (some "x")).2.1 = true)
  ∧ ¬ (((Element.props ⟨0⟩ ⟨"", "", [("x", some (PropVal.str "1"))], []⟩
        (some "x=1") (some "x")).2.1 = true)
      ↔ (Element.props ⟨0⟩ ⟨"", "", [("x", some (PropVal.str "1"))], []⟩
        (some "x=1") (some "x")).1
          ≠ ⟨"", "", [("x", some (PropVal.str "1"))], []⟩) := by
  refine ⟨by decide, by decide, ?_⟩
  intro hiff
  exact absurd (hiff.mp (by decide)) (by decide)

/-- C4 (amended): the mutators diff before redrawing.  `classes(...)` and
`style(...)` leave the view untouched and skip `update()` exactly when the
recomputed string equals the current one; `props(...)` invokes `update()`
exactly when some removed prop was previously set or some added prop's
previous value differs from the added value — which can happen even when the
final state equals the pre-call state. -/
theorem C4_amended_diff_before_redraw (e : Element) (v : View)
    (addC removeC replaceC addS removeS replaceS addP removeP : Option String)
    (resS : View × Bool × Element)
    (hS : Element.style e v addS removeS replaceS = some resS) :
    ((Element.classes e v addC removeC replaceC).2.1 = true
        ↔ computeClasses v.classes addC removeC replaceC ≠ v.classes)
  ∧ (computeClasses v.classes addC removeC replaceC = v.classes
        → Element.classes e v addC removeC replaceC = (v, false, e))
  ∧ (resS.2.1 = true ↔ resS.1.style ≠ v.style)
  ∧ (resS.1.style = v.style → resS.1 = v)
  ∧ ((Element.props e v addP removeP).2.1 = true
        ↔ (∃ k ∈ (propsStrToDict removeP).map Prod.fst, v.getattr k ≠ none)
          ∨ ∃ kv ∈ propsStrToDict addP, v.getattr kv.1 ≠ some kv.2) := by
  have hclasses : ((Element.classes e v addC removeC replaceC).2.1 = true
      ↔ computeClasses v.classes addC removeC replaceC ≠ v.classes)
    ∧ (computeClasses v.classes addC removeC replaceC = v.classes
      → Element.classes e v addC removeC replaceC = (v, false, e)) := by
    unfold Element.classes
    by_cases h : v.classes = computeClasses v.classes addC removeC replaceC
    · rw [if_neg (not_not_intro h)]
      exact ⟨by simp [← h], fun _ => rfl⟩
    · rw [if_pos h]
      exact ⟨by simp [Ne.symm h], fun hc => absurd hc.symm h⟩
  have hstyle : (resS.2.1 = true ↔ resS.1.style ≠ v.style)
      ∧ (resS.1.style = v.style → resS.1 = v) := by
    unfold Element.style at hS
    cases hd : styleDictOf v.style addS removeS replaceS with
    | none => rw [hd] at hS; simp at hS
    | some d =>
      rw [hd] at hS
      simp only [Option.pure_def, Option.bind_eq_bind, Option.some_bind] at hS
      by_cases hne : v.style = styleStringOfDict d
      · rw [if_neg (not_not_intro hne)] at hS
        obtain rfl : (v, false, e) = resS := by simpa using hS
        exact ⟨by simp, fun _ => rfl⟩
      · rw [if_pos hne] at hS
        obtain rfl : ({ v with style := styleStringOfDict d }, true, e) = resS := by
          simpa using hS
        exact ⟨by simp [Ne.symm hne], fun hc => absurd hc.symm hne⟩
  have hrm := props_remove_fold ((propsStrToDict removeP).map Prod.fst)
      (propsStrToDict_keys_nodup removeP) v false
  have hadd := props_add_fold (propsStrToDict addP) (propsStrToDict_keys_nodup addP)
      (((propsStrToDict removeP).map Prod.fst).foldl
        (fun (acc : View × Bool) k =>
          (acc.1.setattr k none, acc.2 || decide (acc.1.getattr k ≠ none))) (v, false)).1
      (((propsStrToDict removeP).map Prod.fst).foldl
        (fun (acc : View × Bool) k =>
          (acc.1.setattr k none, acc.2 || decide (acc.1.getattr k ≠ none))) (v, false)).2
  have hflag : ((Element.props e v addP removeP).2.1 = true
      ↔ (((propsStrToDict removeP).map Prod.fst).foldl
          (fun (acc : View × Bool) k =>
            (acc.1.setattr k none, acc.2 || decide (acc.1.getattr k ≠ none)))
          (v, false)).2 = true
        ∨ ∃ kv ∈ propsStrToDict addP,
            (((propsStrToDict removeP).map Prod.fst).foldl
              (fun (acc : View × Bool) k =>
                (acc.1.setattr k none, acc.2 || decide (acc.1.getattr k ≠ none)))
              (v, false)).1.getattr kv.1 ≠ some kv.2) := hadd.2
  refine ⟨hclasses.1, hclasses.2, hstyle.1, hstyle.2, ?_⟩
  rw [hflag, hrm.2]
  simp only [Bool.false_eq_true, false_or]
  constructor
  · rintro (h | ⟨kv, hkv, hne⟩)
    · exact Or.inl h
    · rw [hrm.1 kv.1] at hne
      by_cases hr : kv.1 ∈ (propsStrToDict removeP).map Prod.fst
      · rw [if_pos hr] at hne
        by_cases hv : v.getattr kv.1 = none
        · exact Or.inr ⟨kv, hkv, by rw [hv]; simp⟩
        · exact Or.inl ⟨kv.1, hr, hv⟩
      · rw [if_neg hr] at hne
        exact Or.inr ⟨kv, hkv, hne⟩
  · rintro (h | ⟨kv, hkv, hne⟩)
    · exact Or.inl h
    · by_cases hr : kv.1 ∈ (propsStrToDict removeP).map Prod.fst
      · exact Or.inr ⟨kv, hkv, by rw [hrm.1 kv.1, if_pos hr]; simp⟩
      · exact Or.inr ⟨kv, hkv, by rw [hrm.1 kv.1, if_neg hr]; exact hne⟩

/-- C4 witness: the amended statement at a concrete idle call. -/
theorem C4_amended_diff_before_redraw_witness :
    ((Element.classes ⟨0⟩ ⟨"", "", [], []⟩ none none none).2.1 = true
        ↔ computeClasses "" none none none ≠ "")
  ∧ (computeClasses "" none none none = ""
        → Element.classes ⟨0⟩ ⟨"", "", [], []⟩ none none none
            = (⟨"", "", [], []⟩, false, ⟨0⟩))
  ∧ ((((⟨"", "", [], []⟩, false, ⟨0⟩) : View × Bool × Element).2.1 = true)
        ↔ (((⟨"", "", [], []⟩, false, ⟨0⟩) : View × Bool × Element).1.style ≠ ""))
  ∧ ((((⟨"", "", [], []⟩, false, ⟨0⟩) : View × Bool × Element).1.style = "")
        → ((⟨"", "", [], []⟩, false, ⟨0⟩) : View × Bool × Element).1 = ⟨"", "", [], []⟩)
  ∧ ((Element.props ⟨0⟩ ⟨"", "", [], []⟩ none none).2.1 = true
        ↔ (∃ k ∈ (propsStrToDict none).map Prod.fst,
              View.getattr ⟨"", "", [], []⟩ k ≠ none)
          ∨ ∃ kv ∈ propsStrToDict none,
              View.getattr ⟨"", "", [], []⟩ kv.1 ≠ some kv.2) :=
  C4_amended_diff_before_redraw ⟨0⟩ ⟨"", "", [], []⟩ none none none none none none
    none none (⟨"", "", [], []⟩, false, ⟨0⟩) (by decide)

/-- C5: `update()` never raises: it returns `ok` for every loop state,
schedules the redraw task exactly when an event loop is already running, and
does nothing at all otherwise. -/
theorem C5_update_never_raises (loopRunning : Bool) :
    Element.update loopRunning
        = Except.ok (if loopRunning then UpdateEffect.scheduledRedraw else UpdateEffect.noop)
  ∧ (Element.update loopRunning = Except.ok UpdateEffect.scheduledRedraw
        ↔ loopRunning = true)
  ∧ (Element.update loopRunning = Except.ok UpdateEffect.noop ↔ loopRunning = false) := by
  cases loopRunning <;>
    simp [Element.update, get_running_loop, create_task]

/-- C6: visibility is realized through the `hidden` class: each change
through `_handle_visibility_change` sets the class on a falsy value, removes
it on a truthy value and requests a redraw, so after any sequence of changes
the view carries `hidden` exactly when the last `visible` value was
`False`. -/
theorem C6_visibility_hidden_class (v : View) (vs : List Bool) (b : Bool) :
    ("hidden" ∈ pySplit (applyVisibilitySeq v (vs ++ [b])).classes ↔ b = false)
  ∧ ((handle_visibility_change v b).2 = true)
  ∧ ("hidden" ∈ pySplit (handle_visibility_change v b).1.classes ↔ b = false) := by
  refine ⟨?_, rfl, handle_visibility_hidden v b⟩
  unfold applyVisibilitySeq
  rw [List.foldl_append]
  exact handle_visibility_hidden
    (vs.foldl (fun v b => (handle_visibility_change v b).1) v) b

/-- C7: `bind_visibility_from` and `bind_visibility` with `value = v` install
a backward binding whose conversion maps the bound attribute value `x` to the
boolean `x == v`; with `value = None` the caller-supplied backward function is
installed unchanged. -/
theorem C7_bind_visibility_value {α : Type} [DecidableEq α] (e : Element)
    (backward : α → Bool) (obw : Option (α → Bool)) (forward : Bool → α) (v x : α) :
    ((Element.bind_visibility_from e backward (some v)).1.backward
        = some (fun y => decide (y = v)))
  ∧ (((Element.bind_visibility_from e backward (some v)).1.backward).map
        (fun f => f x) = some (decide (x = v)))
  ∧ ((Element.bind_visibility_from e backward none).1.backward = some backward)
  ∧ ((Element.bind_visibility e forward obw (some v)).1.backward
        = some (fun y => decide (y = v)))
  ∧ (((Element.bind_visibility e forward obw (some v)).1.backward).map
        (fun f => f x) = some (decide (x = v)))
  ∧ ((Element.bind_visibility e forward obw none).1.backward = obw) :=
  ⟨rfl, rfl, rfl, rfl, rfl, rfl⟩

/-- C8: the API is fluent: `classes`, `style`, `props`, `tooltip`,
`bind_visibility_to`, `bind_visibility_from` and `bind_visibility` all return
the very element object they were invoked on. -/
theorem C8_fluent_methods {α : Type} [DecidableEq α] (e : Element) (v : View)
    (a r p a2 r2 : Option String) (txt props2 : String)
    (fw : Bool → α) (bw : α → Bool) (obw : Option (α → Bool)) (val : Option α)
    (resS resT : View × Bool × Element)
    (hS : Element.style e v a r p = some resS)
    (hT : Element.tooltip e v txt props2 = some resT) :
    (Element.classes e v a r p).2.2 = e
  ∧ resS.2.2 = e
  ∧ (Element.props e v a2 r2).2.2 = e
  ∧ resT.2.2 = e
  ∧ (Element.bind_visibility_to e fw).2 = e
  ∧ (Element.bind_visibility_from e bw val).2 = e
  ∧ (Element.bind_visibility e fw obw val).2.2 = e := by
  refine ⟨?_, ?_, rfl, ?_, rfl, rfl, rfl⟩
  · unfold Element.classes
    by_cases h : v.classes = computeClasses v.classes a r p
    · rw [if_neg (not_not_intro h)]
    · rw [if_pos h]
  · unfold Element.style at hS
    simp only [Option.pure_def, Option.bind_eq_bind, Option.bind_eq_some] at hS
    obtain ⟨d, hd, hS⟩ := hS
    by_cases hne : v.style ≠ styleStringOfDict d
    · rw [if_pos hne] at hS
      obtain rfl : ({ v with style := styleStringOfDict d }, true, e) = resS := by
        simpa using hS
      rfl
    · rw [if_neg hne] at hS
      obtain rfl : (v, false, e) = resS := by simpa using hS
      rfl
  · unfold Element.tooltip at hT
    simp only [Option.pure_def, Option.bind_eq_bind, Option.bind_eq_some] at hT
    obtain ⟨t, ht, hT⟩ := hT
    obtain rfl : ({ v with tooltips := v.tooltips ++ [t] }, true, e) = resT := by
      simpa using hT
    rfl

/-- C8 witness: the fluent returns at a concrete call of each method. -/
theorem C8_fluent_methods_witness :
    (Element.classes ⟨1⟩ ⟨"", "", [], []⟩ none none none).2.2 = ⟨1⟩
  ∧ (((⟨"", "", [], []⟩, false, ⟨1⟩) : View × Bool × Element)).2.2 = ⟨1⟩
  ∧ (Element.props ⟨1⟩ ⟨"", "", [], []⟩ none none).2.2 = ⟨1⟩
  ∧ (((⟨"", "", [], [⟨"hi", false, []⟩]⟩, true, ⟨1⟩) : View × Bool × Element)).2.2 = ⟨1⟩
  ∧ (Element.bind_visibility_to ⟨1⟩ (fun _ => (0 : Nat))).2 = ⟨1⟩
  ∧ (Element.bind_visibility_from ⟨1⟩ (fun _ : Nat => true) none).2 = ⟨1⟩
  ∧ (Element.bind_visibility ⟨1⟩ (fun _ => (0 : Nat)) none none).2.2 = ⟨1⟩ :=
  C8_fluent_methods ⟨1⟩ ⟨"", "", [], []⟩ none none none none none "hi" ""
    (fun _ => 0) (fun _ => true) none none
    (⟨"", "", [], []⟩, false, ⟨1⟩) (⟨"", "", [], [⟨"hi", false, []⟩]⟩, true, ⟨1⟩)
    (by decide) (by decide)

/-- C10: `Element.__init__` asserts the parent view belongs to exactly one
page after adding the view; under that precondition the assertion holds, the
element's page is that unique page, the view is registered with it and
`visible` is initialised to `True`; with zero or several pages the
constructor raises `AssertionError`. -/
theorem C10_init_unique_page (parent parent2 : ParentView) (viewId : Nat)
    (view_pages : List Page) (k : Nat) (p : Page)
    (hp : parent.pages = [(k, p)]) (h2 : parent2.pages.length ≠ 1) :
    Element.init parent viewId view_pages
      = ({ parent with components := parent.components ++ [viewId] },
         some { page := p, view_pages := view_pages ++ [p], visible := true })
  ∧ (Element.init parent2 viewId view_pages).2 = none := by
  constructor
  · unfold Element.init
    simp [hp]
  · unfold Element.init
    simp [h2]

/-- C10 witness: a parent with one page constructs; a pageless parent
asserts. -/
theorem C10_init_unique_page_witness :
    Element.init ⟨[1], [(5, ⟨7⟩)]⟩ 9 []
      = (⟨[1, 9], [(5, ⟨7⟩)]⟩,
         some { page := ⟨7⟩, view_pages := [⟨7⟩], visible := true })
  ∧ (Element.init ⟨[], []⟩ 9 []).2 = none :=
  C10_init_unique_page ⟨[1], [(5, ⟨7⟩)]⟩ ⟨[], []⟩ 9 [] 5 ⟨7⟩ (by decide) (by decide)

end NiceGui
